import Mathlib

/-!
Verification of the dice-expression core of the dicerobot repository
(`src/Desktop/dicerobot/dice_roller.py`): the single-expression grammar
parser, the repetition-group expander, the expression-list splitter, the
stochastic roll evaluator and the reply formatter.

The Python regexes are embedded as deterministic parsers over `List Char`.
Both regexes are anchored and every optional group starts with a character
that can never continue the greedy digit run preceding it (`d`, `a`, `p`,
`+`, `-`, end of string), so greedy matching without backtracking computes
exactly the regex match; `digitsToNat` is `int` on a digit string.

Randomness is modelled by an explicit draw stream `randint : Nat → Int`
handing out the successive results of `random.randint(1, faces)`; the
evaluator consumes the stream left to right exactly in the order the
Python code calls the generator.
-/

/-- The tuple `(num_dice, num_faces, modifier, advantage, adv_dice)` that
`parse_roll_expression` appends to `dice_params`. `advantage` is `''`, `'a'`
or `'p'` in Python; the empty string is modelled as `none`. -/
structure DiceParams where
  num_dice : Nat
  faces : Nat
  modifier : Int
  advantage : Option Char
  adv_dice : Nat
deriving DecidableEq, Repr

/-- Value of Python `int` on a non-empty decimal digit string. -/
def digitsToNat (ds : List Char) : Nat :=
  ds.foldl (fun n c => n * 10 + (c.toNat - '0'.toNat)) 0

/-- The anchored tail `([+-]\x7b1\x7d?\d+)?$` of both regexes, returning the
parsed modifier (0 when the group is absent) provided the group consumes the
whole remainder of the token: `some m` on a match, `none` otherwise. -/
def parseModifier (r : List Char) : Option Int :=
  match r with
  | [] => some 0
  | c :: r2 =>
    if c = '+' ∨ c = '-' then
      let ds := r2.takeWhile Char.isDigit
      if ds.isEmpty ∨ ¬ (r2.dropWhile Char.isDigit).isEmpty then none
      else some (if c = '+' then (digitsToNat ds : Int) else -(digitsToNat ds : Int))
    else none

/-- The group pair `([ap])?(\d+)?` of the plain pattern: returns the
advantage marker (if any), the `adv_dice` value the Python code derives from
the two groups (digits present ⇒ their value, marker without digits ⇒ the
default 2, no marker ⇒ 0) and the unconsumed remainder. -/
def advStep (r : List Char) : Option Char × Nat × List Char :=
  match r with
  | [] => (none, 0, r)
  | c :: r2 =>
    if c = 'a' ∨ c = 'p' then
      let ds := r2.takeWhile Char.isDigit
      (some c, if ds.isEmpty then 2 else digitsToNat ds, r2.dropWhile Char.isDigit)
    else (none, 0, r)

/-- The plain single-expression pattern
`^(\d+)?d(\d+)([ap])?(\d+)?([+-]\d+)?$` of `parse_roll_expression`,
together with the defaults the function applies to the groups
(`num_dice = 1` when the count group is absent). -/
def plain_match (s : List Char) : Option DiceParams :=
  let ds := s.takeWhile Char.isDigit
  match s.dropWhile Char.isDigit with
  | [] => none
  | c :: r2 =>
    if c = 'd' then
      let fs := r2.takeWhile Char.isDigit
      if fs.isEmpty then none
      else
        let (adv, advd, r4) := advStep (r2.dropWhile Char.isDigit)
        match parseModifier r4 with
        | some m =>
          some ⟨if ds.isEmpty then 1 else digitsToNat ds, digitsToNat fs, m, adv, advd⟩
        | none => none
    else none

/-- The inner-expression part `\d*d\d+([ap]\d+)?([+-]\d+)?` of the nested
pattern in `parse_nested_expression`; unlike the plain pattern, an advantage
marker must be followed by at least one digit. -/
def nested_inner_ok (s : List Char) : Bool :=
  match s.dropWhile Char.isDigit with
  | [] => false
  | c :: r2 =>
    if c = 'd' then
      let fs := r2.takeWhile Char.isDigit
      if fs.isEmpty then false
      else
        let r3 := r2.dropWhile Char.isDigit
        match r3 with
        | [] => (parseModifier r3).isSome
        | c2 :: r4 =>
          if c2 = 'a' ∨ c2 = 'p' then
            let ds := r4.takeWhile Char.isDigit
            if ds.isEmpty then false
            else (parseModifier (r4.dropWhile Char.isDigit)).isSome
          else (parseModifier r3).isSome
    else false

/-- The nested pattern `^(\d+)\((\d*d\d+([ap]\d+)?([+-]\d+)?)\)$` of
`parse_nested_expression`, returning the repeat count and the inner
expression. The inner grammar contains no parenthesis, so the regex matches
exactly when the final character is `)` and everything between `(` and that
final `)` satisfies the inner grammar. -/
def nested_match (s : List Char) : Option (Nat × List Char) :=
  let ds := s.takeWhile Char.isDigit
  if ds.isEmpty then none
  else
    match s.dropWhile Char.isDigit with
    | [] => none
    | c :: r2 =>
      if c = '(' then
        match r2.getLast? with
        | some c2 =>
          if c2 = ')' ∧ nested_inner_ok r2.dropLast then
            some (digitsToNat ds, r2.dropLast)
          else none
        | none => none
      else none

/-- The recursive call `parse_roll_expression(inner_expr)` made by
`parse_nested_expression`. The inner expression of a matched group contains
no whitespace and no parenthesis (its grammar alphabet is digits and
`d a p + -`), so splitting yields the single token `inner` and the nested
pattern cannot match it; the call reduces to the plain pattern on `inner`.
`inner_roll` is that reduct (lemmas `nested_inner_no_ws` and
`nested_match_of_inner_ok` below justify the reduction). -/
def inner_roll (inner : List Char) : List DiceParams × Option (List Char) :=
  match plain_match inner with
  | some p => ([p], none)
  | none => ([], some inner)

/-- `parse_nested_expression`: on a wrapper match, parse the inner
expression and concatenate `repeat_times` copies of the resulting parameter
list; on any failure return no parameters and the whole token as invalid. -/
def parse_nested_expression (expr : List Char) :
    List DiceParams × Option (List Char) :=
  match nested_match expr with
  | some (n, inner) =>
    match inner_roll inner with
    | (params, none) => ((List.replicate n params).flatten, none)
    | (_, some _) => ([], some expr)
  | none => ([], some expr)

/-- One iteration of the token loop of `parse_roll_expression`: first try
the nested expander (a non-empty expansion is consumed), then the plain
pattern, otherwise collect the token as invalid text. -/
def parse_step (acc : List DiceParams × List (List Char)) (t : List Char) :
    List DiceParams × List (List Char) :=
  let np := (parse_nested_expression t).1
  if ¬ np.isEmpty then (acc.1 ++ np, acc.2)
  else
    match plain_match t with
    | some p => (acc.1 ++ [p], acc.2)
    | none => (acc.1, acc.2 ++ [t])

/-- The token loop of `parse_roll_expression` over the whitespace-split
token list. -/
def parse_tokens (ts : List (List Char)) : List DiceParams × List (List Char) :=
  ts.foldl parse_step ([], [])

/-- Python `str.split()` with no argument: split on runs of whitespace,
dropping empty pieces (this also renders the preceding `strip()`). -/
def splitWsAux : List Char → List Char → List (List Char)
  | [], cur => if cur.isEmpty then [] else [cur.reverse]
  | c :: cs, cur =>
    if c.isWhitespace then
      if cur.isEmpty then splitWsAux cs [] else cur.reverse :: splitWsAux cs []
    else splitWsAux cs (c :: cur)

def splitWs (s : List Char) : List (List Char) := splitWsAux s []

/-- Python `sep.join(l)`. -/
def joinWith (sep : String) : List String → String
  | [] => ""
  | [x] => x
  | x :: y :: xs => x ++ sep ++ joinWith sep (y :: xs)

/-- `parse_roll_expression` on the full command body: split on whitespace,
run the token loop, and join the invalid tokens with single spaces (`None`
when there are none). -/
def parse_roll_expression (expr : String) : List DiceParams × Option String :=
  let toks := splitWs expr.data
  let (ps, ls) := parse_tokens toks
  (ps, if ls.isEmpty then none else some (joinWith " " (ls.map String.mk)))

/-- Python `max(rolls)` on a non-empty list of integers (the Python call
raises on an empty list; the evaluator never produces one). -/
def listMax : List Int → Int
  | [] => 0
  | x :: xs => xs.foldl max x

/-- Python `min(rolls)` on a non-empty list of integers. -/
def listMin : List Int → Int
  | [] => 0
  | x :: xs => xs.foldl min x

/-- The dataclass `DiceRoll` of `dice_roller.py`. -/
structure DiceRoll where
  num_dice : Nat
  faces : Nat
  modifier : Int
  advantage : Option Char
  adv_dice : Nat
  result : Int
  detailed_rolls : List (List Int)
deriving DecidableEq, Repr

/-- `roll_single_dice`: one repetition draws `adv_dice` dice when an
advantage marker is set with `adv_dice > 0` and a single die otherwise; per
repetition the outcome is the maximum for `'a'`, the minimum for `'p'`, the
sole draw otherwise; the final result is the sum of the outcomes plus the
modifier applied once. `randint i` is the `i`-th value the Python code
obtains from `random.randint(1, faces)` during this call. -/
def roll_single_dice (randint : Nat → Int) (num_rolls faces : Nat)
    (modifier : Int) (advantage : Option Char) (adv_dice : Nat) : DiceRoll :=
  let all_results := (List.range num_rolls).map (fun rep =>
    if advantage.isSome ∧ 0 < adv_dice then
      (List.range adv_dice).map (fun j => randint (rep * adv_dice + j))
    else [randint rep])
  let final_results := all_results.map (fun rolls =>
    if advantage = some 'a' then listMax rolls
    else if advantage = some 'p' then listMin rolls
    else rolls.headD 0)
  { num_dice := num_rolls, faces := faces, modifier := modifier,
    advantage := advantage, adv_dice := adv_dice,
    result := final_results.sum + modifier,
    detailed_rolls := all_results }

/-- Number of values one `roll_single_dice` call draws from the random
source. -/
def drawCount (p : DiceParams) : Nat :=
  p.num_dice * (if p.advantage.isSome ∧ 0 < p.adv_dice then p.adv_dice else 1)

/-- The comprehension `[roll_single_dice(*params) for params in dice_params]`
of `process_roll_command`, threading the shared sequential random source
through the successive calls. -/
def roll_all (randint : Nat → Int) (offset : Nat) :
    List DiceParams → List DiceRoll
  | [] => []
  | p :: ps =>
    roll_single_dice (fun i => randint (offset + i))
        p.num_dice p.faces p.modifier p.advantage p.adv_dice
      :: roll_all randint (offset + drawCount p) ps

/-- The `Union[int, Tuple[int, str], str]` second component returned by
`process_roll_command`. -/
inductive RollOutcome where
  | failure (msg : String)
  | withText (total : Int) (text : String)
  | total (t : Int)
deriving DecidableEq, Repr

/-- The static help text returned by `dicehelp()` (only its identity
matters to the properties below). -/
def dicehelp : String := "骰子指令说明: 格式: .r [投掷次数]d[面数][优势类型][优势骰子数][+-调整值] / .r 重复次数(表达式)"

/-- Python `str(x)` on an `Optional[str]`, as interpolated by the f-string
of the total-failure message (`None` renders as the text `None`). -/
def optStr : Option String → String
  | some s => s
  | none => "None"

/-- `process_roll_command`: parse the body, fail wholly when no parameters
were recognised, otherwise evaluate every specification and return the
rolls with the grand total, paired with the leftover text when present. -/
def process_roll_command (randint : Nat → Int) (command : String) :
    List DiceRoll × RollOutcome :=
  let (dice_params, invalid_expr) := parse_roll_expression command
  if dice_params.isEmpty then
    ([], .failure ("无效的骰子表达式: " ++ optStr invalid_expr ++ "\n" ++ dicehelp))
  else
    let roll_results := roll_all randint 0 dice_params
    let total := (roll_results.map (fun r => r.result)).sum
    match invalid_expr with
    | some text => (roll_results, .withText total text)
    | none => (roll_results, .total total)

/-- The signed rendering `{'+' if m > 0 else ''}{m}` used for modifiers. -/
def signedStr (m : Int) : String :=
  (if 0 < m then "+" else "") ++ toString m

/-- `DiceRoll.format_detailed_result`: the per-roll line of the reply. -/
def format_detailed_result (r : DiceRoll) : String :=
  let base_expr := "d" ++ toString r.faces ++
    (if r.modifier ≠ 0 then " " ++ signedStr r.modifier else "")
  let expr := if 1 < r.num_dice then
      toString r.num_dice ++ "(" ++ base_expr ++ ")"
    else base_expr
  let body :=
    if r.advantage.isSome then
      let roll_details := r.detailed_rolls.map (fun rolls =>
        if 1 < rolls.length then
          let chosen := if r.advantage = some 'a' then listMax rolls else listMin rolls
          "(" ++ joinWith " " (rolls.map toString) ++ ")=" ++ toString chosen
        else toString (rolls.headD 0))
      expr ++ "[ " ++ joinWith " | " roll_details ++ " ]"
    else
      expr ++ "[ " ++
        joinWith " | " (r.detailed_rolls.map (fun rolls => toString (rolls.headD 0))) ++ " ]"
  let withMod := body ++ (if r.modifier ≠ 0 then " " ++ signedStr r.modifier else "")
  withMod ++ " = " ++ toString r.result

/-- `format_reply_message`: header line with the nickname, then either the
failure message, or the detailed per-roll lines (one per roll), a `= total`
line exactly when more than one roll was made, and the leftover text as a
final line when present. -/
def format_reply_message (nickname : String) (rolls : List DiceRoll) :
    RollOutcome → String
  | .failure msg => "【" ++ nickname ++ "】\n" ++ msg
  | .withText total text =>
    "【" ++ nickname ++ "】\n" ++
      joinWith "\n" (rolls.map format_detailed_result) ++
      (if 1 < rolls.length then "\n= " ++ toString total else "") ++
      "\n" ++ text
  | .total t =>
    "【" ++ nickname ++ "】\n" ++
      joinWith "\n" (rolls.map format_detailed_result) ++
      (if 1 < rolls.length then "\n= " ++ toString t else "")

/-- The parameter list one token contributes to the output of the token
loop: the nested expansion when non-empty, else the plain match, else
nothing. -/
def token_specs (t : List Char) : List DiceParams :=
  let np := (parse_nested_expression t).1
  if ¬ np.isEmpty then np
  else
    match plain_match t with
    | some p => [p]
    | none => []

/-- Whether one token ends up in the invalid (leftover) text. -/
def token_invalid (t : List Char) : Bool :=
  (parse_nested_expression t).1.isEmpty && (plain_match t).isNone

/-!  ## Supporting lemmas  -/

theorem parseModifier_chars {r : List Char} (h : (parseModifier r).isSome = true) :
    ∀ c ∈ r, c.isDigit = true ∨ c = '+' ∨ c = '-' := by
  intro c hc
  match r, hc with
  | c0 :: r2, hc =>
    simp only [parseModifier] at h
    split at h
    case isFalse => simp at h
    case isTrue hs =>
      split at h
      case isTrue => simp at h
      case isFalse hde =>
        push_neg at hde
        have h3 : r2.dropWhile Char.isDigit = [] := by
          simpa [List.isEmpty_iff] using hde.2
        have hall : r2 = r2.takeWhile Char.isDigit := by
          have h2 := List.takeWhile_append_dropWhile (p := Char.isDigit) (l := r2)
          rw [h3, List.append_nil] at h2
          exact h2.symm
        rcases List.mem_cons.1 hc with rfl | hc2
        · right; exact hs
        · left
          exact List.mem_takeWhile_imp (hall ▸ hc2)

theorem nested_inner_chars {s : List Char} (h : nested_inner_ok s = true) :
    ∀ c ∈ s, c.isDigit = true ∨ c = 'd' ∨ c = 'a' ∨ c = 'p' ∨ c = '+' ∨ c = '-' := by
  intro c hc
  rcases hd : s.dropWhile Char.isDigit with _ | ⟨c0, r2⟩
  · have e : List.takeWhile Char.isDigit s ++ ([] : List Char) = s := by
      rw [← hd]; exact List.takeWhile_append_dropWhile ..
    rw [List.append_nil] at e
    rw [← e] at hc
    left; exact List.mem_takeWhile_imp hc
  · by_cases hc0 : c0 = 'd'
    swap
    · simp only [nested_inner_ok, hd] at h; simp [hc0] at h
    subst hc0
    have e : List.takeWhile Char.isDigit s ++ 'd' :: r2 = s := by
      rw [← hd]; exact List.takeWhile_append_dropWhile ..
    rw [← e] at hc
    rcases List.mem_append.1 hc with h2 | h2
    · left; exact List.mem_takeWhile_imp h2
    rcases List.mem_cons.1 h2 with rfl | h3
    · right; left; rfl
    by_cases hfs : (r2.takeWhile Char.isDigit).isEmpty
    · simp only [nested_inner_ok, hd] at h; simp [hfs] at h
    have e2 : List.takeWhile Char.isDigit r2 ++ r2.dropWhile Char.isDigit = r2 :=
      List.takeWhile_append_dropWhile ..
    rw [← e2] at h3
    rcases List.mem_append.1 h3 with h4 | h4
    · left; exact List.mem_takeWhile_imp h4
    rcases hr3 : r2.dropWhile Char.isDigit with _ | ⟨c2, r4⟩
    · rw [hr3] at h4; cases h4
    rw [hr3] at h4
    by_cases hc2 : c2 = 'a' ∨ c2 = 'p'
    · by_cases hds : (r4.takeWhile Char.isDigit).isEmpty
      · rcases hc2 with rfl | rfl <;>
          · simp only [nested_inner_ok, hd] at h
            simp [hfs, hr3, hds] at h
      · have hmod : (parseModifier (r4.dropWhile Char.isDigit)).isSome = true := by
          rcases hc2 with rfl | rfl <;>
            · simp only [nested_inner_ok, hd] at h
              simpa [hfs, hr3, hds] using h
        rcases List.mem_cons.1 h4 with rfl | h5
        · rcases hc2 with rfl | rfl
          · right; right; left; rfl
          · right; right; right; left; rfl
        · have e3 : List.takeWhile Char.isDigit r4 ++ r4.dropWhile Char.isDigit = r4 :=
            List.takeWhile_append_dropWhile ..
          rw [← e3] at h5
          rcases List.mem_append.1 h5 with h6 | h6
          · left; exact List.mem_takeWhile_imp h6
          · rcases parseModifier_chars hmod c h6 with h7 | h7
            · left; exact h7
            · right; right; right; right; exact h7
    · have hmod : (parseModifier (c2 :: r4)).isSome = true := by
        simp only [nested_inner_ok, hd] at h
        simpa [hfs, hr3, hc2] using h
      rcases parseModifier_chars hmod c h4 with h7 | h7
      · left; exact h7
      · right; right; right; right; exact h7

/-- The inner expression of a matched repetition group never itself matches
the nested pattern (its first non-digit character is `d`, not an opening
parenthesis), which justifies reducing the recursive
`parse_roll_expression(inner_expr)` call to `inner_roll`. -/
theorem nested_match_of_inner_ok {s : List Char} (h : nested_inner_ok s = true) :
    nested_match s = none := by
  rcases hd : s.dropWhile Char.isDigit with _ | ⟨c0, r2⟩ <;>
    simp only [nested_inner_ok, hd] at h
  · cases h
  · by_cases hc0 : c0 = 'd'
    · subst hc0
      simp only [nested_match, hd]
      split
      · rfl
      · simp
    · simp [hc0] at h

/-- The inner expression of a matched repetition group contains no
whitespace, so `str.split()` inside the recursive call returns it as the
single token. -/
theorem digit_not_ws {c : Char} (h : c.isDigit = true) : c.isWhitespace = false := by
  cases hw : c.isWhitespace
  · rfl
  · exfalso
    simp only [Char.isDigit, decide_eq_true_eq, Bool.and_eq_true] at h
    simp only [Char.isWhitespace, Bool.or_eq_true, decide_eq_true_eq] at hw
    rcases hw with ((rfl | rfl) | rfl) | rfl <;> exact absurd h (by decide)

theorem nested_inner_no_ws {s : List Char} (h : nested_inner_ok s = true) :
    ∀ c ∈ s, c.isWhitespace = false := by
  intro c hc
  rcases nested_inner_chars h c hc with h1 | h1 | h1 | h1 | h1 | h1
  · exact digit_not_ws h1
  all_goals subst h1; rfl

/-- The restricted inner grammar of the nested pattern is contained in the
plain single-expression grammar: whatever the wrapper accepts as inner
expression, the plain pattern parses as well. -/
theorem inner_ok_plain {s : List Char} (h : nested_inner_ok s = true) :
    (plain_match s).isSome = true := by
  rcases hd : s.dropWhile Char.isDigit with _ | ⟨c0, r2⟩ <;>
    simp only [nested_inner_ok, hd] at h
  · cases h
  by_cases hc0 : c0 = 'd'
  swap
  · simp [hc0] at h
  subst hc0
  by_cases hfs : (r2.takeWhile Char.isDigit).isEmpty
  · simp [hfs] at h
  rcases hr3 : r2.dropWhile Char.isDigit with _ | ⟨c2, r4⟩
  · simp [plain_match, hd, hfs, hr3, advStep, parseModifier]
  by_cases hc2 : c2 = 'a' ∨ c2 = 'p'
  · by_cases hds : (r4.takeWhile Char.isDigit).isEmpty
    · rcases hc2 with rfl | rfl <;> simp [hfs, hr3, hds] at h
    · have hmod : (parseModifier (r4.dropWhile Char.isDigit)).isSome = true := by
        rcases hc2 with rfl | rfl <;> simpa [hfs, hr3, hds] using h
      rcases Option.isSome_iff_exists.1 hmod with ⟨m, hm⟩
      simp [plain_match, hd, hfs, hr3, advStep, hc2, hm]
  · have hmod : (parseModifier (c2 :: r4)).isSome = true := by
      simpa [hfs, hr3, hc2] using h
    rcases Option.isSome_iff_exists.1 hmod with ⟨m, hm⟩
    simp [plain_match, hd, hfs, hr3, advStep, hc2, hm]

theorem advStep_none {r : List Char} (h : (advStep r).1 = none) :
    (advStep r).2.1 = 0 := by
  match r with
  | [] => rfl
  | c :: r2 =>
    simp only [advStep] at h ⊢
    split at h
    case isTrue => simp at h
    case isFalse hcc => rw [if_neg hcc]

theorem flatten_replicate_singleton {α : Type} (n : Nat) (p : α) :
    (List.replicate n [p]).flatten = List.replicate n p := by
  induction n with
  | zero => rfl
  | succ k ih => simp [List.replicate_succ, ih]

/-!  ## Claim theorems  -/

/-- C1: for every dice specification with `faces ≥ 1`, the evaluator's
final result equals the sum over all repetitions of the chosen value plus
the modifier, where the chosen value of a repetition is the maximum of its
draws under Advantage (`'a'`), the minimum under Disadvantage (`'p'`), and
the sole draw otherwise (each repetition then holds exactly one draw). -/
theorem C1_final_result (randint : Nat → Int) (n faces : Nat) (m : Int)
    (adv : Option Char) (k : Nat) (hf : 1 ≤ faces) :
    (roll_single_dice randint n faces m adv k).result
      = (((roll_single_dice randint n faces m adv k).detailed_rolls).map
          (fun rolls =>
            if adv = some 'a' then listMax rolls
            else if adv = some 'p' then listMin rolls
            else rolls.headD 0)).sum + m
    ∧ (adv = none →
        ∀ g ∈ (roll_single_dice randint n faces m adv k).detailed_rolls,
          ∃ v, g = [v]) := by
  constructor
  · rfl
  · rintro rfl g hg
    simp only [roll_single_dice, List.mem_map] at hg
    obtain ⟨rep, -, hrep⟩ := hg
    simp only [Option.isSome_none, Bool.false_eq_true, false_and, if_false] at hrep
    exact ⟨randint rep, hrep.symm⟩

theorem C1_final_result_witness :
    (roll_single_dice (fun _ => 4) 2 6 1 none 0).result
      = (((roll_single_dice (fun _ => 4) 2 6 1 none 0).detailed_rolls).map
          (fun rolls =>
            if (none : Option Char) = some 'a' then listMax rolls
            else if (none : Option Char) = some 'p' then listMin rolls
            else rolls.headD 0)).sum + 1
    ∧ ((none : Option Char) = none →
        ∀ g ∈ (roll_single_dice (fun _ => 4) 2 6 1 none 0).detailed_rolls,
          ∃ v, g = [v]) :=
  C1_final_result (fun _ => 4) 2 6 1 none 0 (by decide)

/-- C3 counterexample: the token `d20a0` parses with Advantage and
`adv_dice = 0`, yet the evaluator's roll group for it has length 1, not
length `advantageDiceCount = 0` as the claim requires. -/
theorem C3_counterexample :
    plain_match "d20a0".data = some ⟨1, 20, 0, some 'a', 0⟩
    ∧ ¬ (∀ g ∈ (roll_single_dice (fun _ => 1) 1 20 0 (some 'a') 0).detailed_rolls,
          g.length = 0) := by
  constructor
  · decide
  · decide

/-- C3 amended: `rollGroups` has one inner sequence per repetition, and
each inner sequence has length `advantageDiceCount` when an advantage
marker is set with `advantageDiceCount > 0`, and length 1 otherwise
(including the parseable case `advantageDiceCount = 0`). -/
theorem C3_group_lengths (randint : Nat → Int) (n faces : Nat) (m : Int)
    (adv : Option Char) (k : Nat) :
    (roll_single_dice randint n faces m adv k).detailed_rolls.length = n
    ∧ ∀ g ∈ (roll_single_dice randint n faces m adv k).detailed_rolls,
        g.length = if adv.isSome ∧ 0 < k then k else 1 := by
  constructor
  · simp [roll_single_dice]
  · intro g hg
    simp only [roll_single_dice, List.mem_map] at hg
    obtain ⟨rep, -, rfl⟩ := hg
    by_cases hcond : adv.isSome ∧ 0 < k
    · simp [hcond]
    · simp [hcond]

theorem C3_group_lengths_witness :
    (roll_single_dice (fun _ => 2) 1 5 0 (some 'a') 3).detailed_rolls.length = 1
    ∧ ([(2 : Int), 2, 2].length
        = if (some 'a' : Option Char).isSome ∧ 0 < 3 then 3 else 1) :=
  ⟨(C3_group_lengths (fun _ => 2) 1 5 0 (some 'a') 3).1,
   (C3_group_lengths (fun _ => 2) 1 5 0 (some 'a') 3).2 [2, 2, 2] (by decide)⟩

/-- C4 counterexample: with 2 repetitions and modifier 3 the evaluator's
result is the sum of the chosen values plus 3 once (here 1+1+3 = 5), not
the sum of (chosen value + modifier) per repetition (which would be 8). -/
theorem C4_counterexample :
    ¬ ((roll_single_dice (fun _ => 1) 2 6 3 none 0).result
        = (((roll_single_dice (fun _ => 1) 2 6 3 none 0).detailed_rolls).map
            (fun g => g.headD 0 + 3)).sum) := by
  decide

/-- C4 amended: the modifier is an additive constant applied once per
specification, not once per repetition: the final result with modifier `m`
equals the final result with modifier 0 plus `m`, whatever the repetition
count. -/
theorem C4_modifier_once (randint : Nat → Int) (n faces : Nat) (m : Int)
    (adv : Option Char) (k : Nat) :
    (roll_single_dice randint n faces m adv k).result
      = (roll_single_dice randint n faces 0 adv k).result + m := by
  simp [roll_single_dice]

/-- C2 (bug evidence): the token `d0` is accepted by the single-expression
pattern with `faces = 0` and propagated by `process_roll_command` to the
evaluator (in the Python code the evaluator then calls
`random.randint(1, 0)`, which raises `ValueError`, so an exception does
cross the core boundary instead of the token being rejected or guarded). -/
theorem C2_d0_reaches_evaluator :
    parse_roll_expression "d0" = ([⟨1, 0, 0, none, 0⟩], none)
    ∧ ((process_roll_command (fun _ => 1) "d0").1.map (fun r => r.faces)) = [0] := by
  constructor
  · decide
  · decide

/-- C5: the single-expression parser applies the grammar defaults: an
omitted count yields 1 repetition, an absent advantage marker yields
`adv_dice = 0`, `parse("d100")` gives 1 repetition of a 100-faced die with
no modifier and no advantage, `parse("2d6+3")` gives 2 repetitions of d6
with modifier +3, a marker with no digits defaults to 2 advantage dice
(`d20a`, `d20p`), an absent modifier yields 0 (`d6`), and omitted faces are
invalid (`2d`, `d`). -/
theorem C5_parser_defaults :
    (∀ t p, plain_match ('d' :: t) = some p → p.num_dice = 1)
    ∧ (∀ t p, plain_match t = some p → p.advantage = none → p.adv_dice = 0)
    ∧ plain_match "d100".data = some ⟨1, 100, 0, none, 0⟩
    ∧ plain_match "2d6+3".data = some ⟨2, 6, 3, none, 0⟩
    ∧ plain_match "d20p".data = some ⟨1, 20, 0, some 'p', 2⟩
    ∧ plain_match "d20a".data = some ⟨1, 20, 0, some 'a', 2⟩
    ∧ plain_match "d6".data = some ⟨1, 6, 0, none, 0⟩
    ∧ plain_match "2d".data = none
    ∧ plain_match "d".data = none := by
  refine ⟨?_, ?_, by decide, by decide, by decide, by decide, by decide,
    by decide, by decide⟩
  · intro t p h
    have hdig : Char.isDigit 'd' = false := rfl
    simp only [plain_match, List.takeWhile_cons, List.dropWhile_cons, hdig,
      Bool.false_eq_true, if_false, if_true] at h
    split at h
    · cases h
    · split at h
      · cases h
        rfl
      · cases h
  · intro t p h hadv
    simp only [plain_match] at h
    rcases ht : t.dropWhile Char.isDigit with _ | ⟨c, r2⟩ <;> simp only [ht] at h
    · cases h
    · by_cases hc : c = 'd'
      · rw [if_pos hc] at h
        split at h
        · cases h
        · split at h
          · cases h
            exact advStep_none hadv
          · cases h
      · rw [if_neg hc] at h
        cases h

theorem C5_parser_defaults_witness :
    (⟨1, 100, 0, none, 0⟩ : DiceParams).num_dice = 1
    ∧ (⟨1, 6, 0, none, 0⟩ : DiceParams).adv_dice = 0 :=
  ⟨C5_parser_defaults.1 "100".data ⟨1, 100, 0, none, 0⟩ (by decide),
   C5_parser_defaults.2.1 "d6".data ⟨1, 6, 0, none, 0⟩ (by decide) (by decide)⟩

/-- C6 counterexample: the inner expression `d20a` satisfies the plain
single-expression grammar (advantage marker with no digits), yet the
repetition-group expander does not match the token `2(d20a)` — its inner
grammar demands digits after the marker — so the token falls through to
leftover text instead of being expanded. -/
theorem C6_counterexample :
    plain_match "d20a".data = some ⟨1, 20, 0, some 'a', 2⟩
    ∧ parse_nested_expression "2(d20a)".data = ([], some "2(d20a)".data) := by
  constructor
  · decide
  · decide

/-- C6 amended: the expander matches exactly the tokens
`<repeatCount>(<innerExpression>)` whose inner expression satisfies the
restricted inner grammar `\d*d\d+([ap]\d+)?([+-]\d+)?` (an advantage
marker must carry digits); whenever the wrapper pattern matches, the inner
expression also parses under the plain grammar and the token expands into
`repeatCount` copies of the resulting specification. -/
theorem C6_group_expansion (t : List Char) (n : Nat) (inner : List Char)
    (h : nested_match t = some (n, inner)) :
    ∃ p, plain_match inner = some p
      ∧ parse_nested_expression t = (List.replicate n p, none) := by
  have h0 := h
  have hok : nested_inner_ok inner = true := by
    simp only [nested_match] at h
    split at h
    · cases h
    · rcases ht : t.dropWhile Char.isDigit with _ | ⟨c, r2⟩ <;> simp only [ht] at h
      · cases h
      · split at h
        · rcases hl : r2.getLast? with _ | c2 <;> simp only [hl] at h
          · cases h
          · split at h
            · rename_i hcond
              simp only [Option.some.injEq, Prod.mk.injEq] at h
              rw [← h.2]
              exact hcond.2
            · cases h
        · cases h
  have hsome := inner_ok_plain hok
  rcases Option.isSome_iff_exists.1 hsome with ⟨p, hp⟩
  refine ⟨p, hp, ?_⟩
  simp [parse_nested_expression, h0, inner_roll, hp, flatten_replicate_singleton]

theorem C6_group_expansion_witness :
    parse_nested_expression "3(d4+2)".data
      = (List.replicate 3 (⟨1, 4, 2, none, 0⟩ : DiceParams), none) := by
  obtain ⟨p, hp, he⟩ := C6_group_expansion "3(d4+2)".data 3 "d4+2".data (by decide)
  have hp2 : plain_match "d4+2".data = some ⟨1, 4, 2, none, 0⟩ := by decide
  rw [hp] at hp2
  have hpv : p = ⟨1, 4, 2, none, 0⟩ := Option.some.inj hp2
  rw [hpv] at he
  exact he

/-- C7: when the repetition-group expander succeeds on a token it returns
exactly `repeatCount` identical copies of the inner specification; in
particular `3(d4+2)` expands into three identical specifications with one
repetition of a 4-faced die and modifier +2. -/
theorem C7_repeat_copies :
    (∀ t n inner p, nested_match t = some (n, inner) →
        plain_match inner = some p →
        parse_nested_expression t = (List.replicate n p, none))
    ∧ parse_nested_expression "3(d4+2)".data
        = (List.replicate 3 (⟨1, 4, 2, none, 0⟩ : DiceParams), none) := by
  constructor
  · intro t n inner p h hp
    simp [parse_nested_expression, h, inner_roll, hp, flatten_replicate_singleton]
  · decide

theorem C7_repeat_copies_witness :
    parse_nested_expression "2(d6)".data
      = (List.replicate 2 (⟨1, 6, 0, none, 0⟩ : DiceParams), none) :=
  C7_repeat_copies.1 "2(d6)".data 2 "d6".data ⟨1, 6, 0, none, 0⟩
    (by decide) (by decide)

/-- C10: a token `0(<inner>)` with a repeat count of zero and a
syntactically valid inner expression matches the wrapper pattern but
expands to the empty list, which the token loop treats as a non-match; the
token then fails the plain grammar (its first non-digit character is `(`)
and is appended whole to the leftover text. -/
theorem C10_zero_repeat :
    (∀ inner, nested_inner_ok inner = true →
        parse_tokens ['0' :: '(' :: (inner ++ [')'])]
          = ([], ['0' :: '(' :: (inner ++ [')'])]))
    ∧ parse_roll_expression "0(d6)" = ([], some "0(d6)") := by
  constructor
  · intro inner hok
    have hzero : Char.isDigit '0' = true := rfl
    have hpar : Char.isDigit '(' = false := rfl
    have hd0 : digitsToNat ['0'] = 0 := rfl
    have hnm : nested_match ('0' :: '(' :: (inner ++ [')'])) = some (0, inner) := by
      simp only [nested_match, List.takeWhile_cons, List.dropWhile_cons, hzero,
        hpar, Bool.false_eq_true, if_false, if_true, List.getLast?_concat,
        List.dropLast_concat, hok, hd0]
      simp
    have hplain : plain_match ('0' :: '(' :: (inner ++ [')'])) = none := by
      simp only [plain_match, List.takeWhile_cons, List.dropWhile_cons, hzero,
        hpar, Bool.false_eq_true, if_false, if_true]
      simp
    have hip := inner_ok_plain hok
    rcases Option.isSome_iff_exists.1 hip with ⟨p, hp⟩
    have hpn : parse_nested_expression ('0' :: '(' :: (inner ++ [')'])) = ([], none) := by
      simp [parse_nested_expression, hnm, inner_roll, hp]
    simp [parse_tokens, parse_step, hpn, hplain]
  · decide

theorem C10_zero_repeat_witness :
    parse_tokens ['0' :: '(' :: ("d6".data ++ [')'])]
      = ([], ['0' :: '(' :: ("d6".data ++ [')'])]) :=
  C10_zero_repeat.1 "d6".data (by decide)

theorem parse_step_eq (acc : List DiceParams × List (List Char)) (t : List Char) :
    parse_step acc t
      = (acc.1 ++ token_specs t,
         acc.2 ++ (if token_invalid t then [t] else [])) := by
  unfold parse_step token_specs token_invalid
  by_cases hnp : (parse_nested_expression t).1.isEmpty
  · rcases hp : plain_match t with _ | p
    · simp [hnp, hp]
    · simp [hnp, hp]
  · simp [hnp]

theorem parse_tokens_spec (ts : List (List Char)) :
    parse_tokens ts = ((ts.map token_specs).flatten, ts.filter token_invalid) := by
  have key : ∀ (l : List (List Char)) (acc : List DiceParams × List (List Char)),
      l.foldl parse_step acc
        = (acc.1 ++ (l.map token_specs).flatten, acc.2 ++ l.filter token_invalid) := by
    intro l
    induction l with
    | nil => intro acc; simp
    | cons t l2 ih =>
      intro acc
      rw [List.foldl_cons, parse_step_eq, ih]
      rw [List.map_cons, List.flatten_cons, List.filter_cons]
      by_cases hti : token_invalid t
      · simp [hti, List.append_assoc]
      · simp [hti, List.append_assoc]
  have h := key ts ([], [])
  simpa [parse_tokens] using h

/-- C8: for every command body string the full-command parser returns the
specifications in left-to-right token order — each token contributing its
own (contiguous, internally ordered) expansion — and the leftover text is
the unmatched tokens in left-to-right input order joined with single
spaces. -/
theorem C8_token_order (s : String) :
    parse_roll_expression s
      = (((splitWs s.data).map token_specs).flatten,
         if ((splitWs s.data).filter token_invalid).isEmpty then none
         else some (joinWith " "
             (((splitWs s.data).filter token_invalid).map String.mk))) := by
  simp only [parse_roll_expression, parse_tokens_spec]

theorem joinWith_cons (sep x : String) {l : List String} (h : l ≠ []) :
    joinWith sep (x :: l) = x ++ sep ++ joinWith sep l := by
  rcases l with _ | ⟨y, ys⟩
  · exact absurd rfl h
  · rfl

theorem joinWith_concat (sep : String) (y : String) {l : List String} (h : l ≠ []) :
    joinWith sep (l ++ [y]) = joinWith sep l ++ sep ++ y := by
  induction l with
  | nil => exact absurd rfl h
  | cons x xs ih =>
    rcases xs with _ | ⟨z, zs⟩
    · rfl
    · rw [List.cons_append, joinWith_cons sep x (l := (z :: zs) ++ [y]) (by simp),
        ih (by simp), joinWith_cons sep x (l := z :: zs) (by simp)]
      simp [String.append_assoc]

/-- C9: in the formatted reply each evaluated roll is rendered on its own
line in parse order; a final `= <grand total>` line is appended exactly
when more than one roll is present; and leftover text, when it coexists
with valid rolls, is the trailing line after the (optional) total line. -/
theorem C9_reply_layout (nickname : String) (rolls : List DiceRoll)
    (total : Int) (text : String) (h : rolls ≠ []) :
    format_reply_message nickname rolls (.withText total text)
      = joinWith "\n" (("【" ++ nickname ++ "】")
          :: (rolls.map format_detailed_result
              ++ (if 1 < rolls.length then ["= " ++ toString total] else [])
              ++ [text]))
    ∧ format_reply_message nickname rolls (.total total)
      = joinWith "\n" (("【" ++ nickname ++ "】")
          :: (rolls.map format_detailed_result
              ++ (if 1 < rolls.length then ["= " ++ toString total] else []))) := by
  have hM : rolls.map format_detailed_result ≠ [] := by simpa using h
  have e1 : ("】\n" : String) = "】" ++ "\n" := rfl
  have e2 : ("\n= " : String) = "\n" ++ "= " := rfl
  constructor
  · simp only [format_reply_message]
    by_cases hlen : 1 < rolls.length
    · rw [if_pos hlen, if_pos hlen]
      have h1 : rolls.map format_detailed_result
          ++ ["= " ++ toString total] ++ [text] ≠ ([] : List String) := by simp
      have h2 : rolls.map format_detailed_result
          ++ ["= " ++ toString total] ≠ ([] : List String) := by simp
      rw [joinWith_cons _ _ h1, joinWith_concat _ _ h2, joinWith_concat _ _ hM,
        e1, e2]
      simp only [String.append_assoc]
    · rw [if_neg hlen, if_neg hlen]
      have h1 : rolls.map format_detailed_result
          ++ ([] : List String) ++ [text] ≠ ([] : List String) := by simp [hM]
      rw [joinWith_cons _ _ h1, List.append_nil, joinWith_concat _ _ hM, e1]
      simp [String.append_assoc]
  · simp only [format_reply_message]
    by_cases hlen : 1 < rolls.length
    · rw [if_pos hlen, if_pos hlen]
      have h1 : rolls.map format_detailed_result
          ++ ["= " ++ toString total] ≠ ([] : List String) := by simp
      rw [joinWith_cons _ _ h1, joinWith_concat _ _ hM, e1, e2]
      simp only [String.append_assoc]
    · rw [if_neg hlen, if_neg hlen, List.append_nil, joinWith_cons _ _ hM, e1]
      simp [String.append_assoc]

theorem C9_reply_layout_witness :
    format_reply_message "u" [⟨1, 6, 0, none, 0, 3, [[3]]⟩] (.withText 3 "qux")
      = joinWith "\n" (("【" ++ "u" ++ "】")
          :: ([(⟨1, 6, 0, none, 0, 3, [[3]]⟩ : DiceRoll)].map format_detailed_result
              ++ (if 1 < [(⟨1, 6, 0, none, 0, 3, [[3]]⟩ : DiceRoll)].length
                    then ["= " ++ toString (3 : Int)] else [])
              ++ ["qux"]))
    ∧ format_reply_message "u" [⟨1, 6, 0, none, 0, 3, [[3]]⟩] (.total 3)
      = joinWith "\n" (("【" ++ "u" ++ "】")
          :: ([(⟨1, 6, 0, none, 0, 3, [[3]]⟩ : DiceRoll)].map format_detailed_result
              ++ (if 1 < [(⟨1, 6, 0, none, 0, 3, [[3]]⟩ : DiceRoll)].length
                    then ["= " ++ toString (3 : Int)] else []))) :=
  C9_reply_layout "u" [⟨1, 6, 0, none, 0, 3, [[3]]⟩] 3 "qux" (by decide)
